import Mathlib

/-!
Verification of the per-tick physics kernel of the gas particle simulation.

The development is a shallow embedding, over exact real arithmetic, of the
step function in gas-particle-simulation.py.  A simulation state is the list
of per-particle 4-vectors (position x, position y, velocity x, velocity y);
the stages of step are embedded one by one: position integration, pairwise
collision detection with the three-stage pair filter, pair resolution, and
boundary reflection.  The canvas bookkeeping at the end of step is rendering
output and is not part of the model.
-/

open Classical

/-- State of one particle: the source keeps one row [x, y, vx, vy] of the
particle_state array per particle. -/
@[ext]
structure Particle where
  px : ℝ
  py : ℝ
  vx : ℝ
  vy : ℝ

instance : Inhabited Particle :=
  ⟨⟨0, 0, 0, 0⟩⟩

/-- The row of upper-triangle index pairs with first index i: the pairs
(i, j) for j from i + 1 to n - 1, j ascending. -/
def triuRow (n i : ℕ) : List (ℕ × ℕ) :=
  ((List.range n).drop (i + 1)).map fun j => (i, j)

/-- Concatenation of the upper-triangle rows for the given first indices,
in order. -/
def triuRows (n : ℕ) : List ℕ → List (ℕ × ℕ)
  | [] => []
  | i :: is => triuRow n i ++ triuRows n is

/-- All index pairs (i, j) with i < j < n, i ascending then j ascending for
fixed i: the enumeration order of np.triu_indices(n, k=1), which is also the
pair order of scipy pdist. -/
def triuPairs (n : ℕ) : List (ℕ × ℕ) :=
  triuRows n (List.range n)

/-- Euclidean distance between the centers of particles i and j of the
state, as computed by scipy pdist. -/
noncomputable def pdistVal (s : List Particle) (i j : ℕ) : ℝ :=
  Real.sqrt (((s.getD j default).px - (s.getD i default).px) ^ 2 +
    ((s.getD j default).py - (s.getD i default).py) ^ 2)

/-- Position integration, line 73 of the source:
particle_state[:, :2] += particle_state[:, 2:] * time_step. -/
def advance (timeStep : ℝ) (s : List Particle) : List Particle :=
  s.map fun p => { p with px := p.px + p.vx * timeStep, py := p.py + p.vy * timeStep }

/-- Raw colliding pairs, lines 76-81 of the source: the upper-triangle pairs
whose pdist distance is at most 2 * radius, kept in enumeration order. -/
noncomputable def collidingPairs (radius : ℝ) (s : List Particle) : List (ℕ × ℕ) :=
  (triuPairs s.length).filter fun pr => decide (pdistVal s pr.1 pr.2 ≤ 2 * radius)

/-- First occurrence of each key value, in input order: for every key value
that occurs in the list, exactly the earliest element carrying that key is
kept. -/
def firstByKey (f : ℕ × ℕ → ℕ) : List (ℕ × ℕ) → List (ℕ × ℕ)
  | [] => []
  | p :: rest => p :: firstByKey f (rest.filter fun q => decide (f q ≠ f p))
termination_by l => l.length
decreasing_by
  simp only [List.length_cons]
  exact Nat.lt_succ_of_le (List.length_filter_le _ _)

/-- Model of np.unique(keys, return_index=True) followed by indexing the
pair arrays with the returned mask: np.unique reports, for each distinct key
value in ascending key order, the index of its first occurrence, so the
surviving pairs are the earliest pair per distinct key, reordered by
ascending key value. -/
def npUniqueBy (f : ℕ × ℕ → ℕ) (l : List (ℕ × ℕ)) : List (ℕ × ℕ) :=
  (firstByKey f l).mergeSort fun a b => decide (f a ≤ f b)

/-- The three-stage reduction of the raw colliding pair list, lines 84-89 of
the source: np.unique on the first indices, then np.unique on the second
indices of the survivors, then np.in1d(colliding_1, colliding_2, invert=True)
to drop survivors whose first index also occurs as a surviving second
index. -/
def matchPairs (l : List (ℕ × ℕ)) : List (ℕ × ℕ) :=
  let l1 := npUniqueBy Prod.fst l
  let l2 := npUniqueBy Prod.snd l1
  l2.filter fun p => decide (p.1 ∉ l2.map Prod.snd)

/-- The resolved matching of a state: detector output after the three-stage
filter. -/
noncomputable def matching (radius : ℝ) (s : List Particle) : List (ℕ × ℕ) :=
  matchPairs (collidingPairs radius s)

/-- New state of the first particle of a resolved pair (a, b), lines 95-104
of the source: with pos_diff = p_b - p_a, vel_diff = v_a - v_b,
scalar_product = vel_diff . pos_diff and pos_diff_norm = |pos_diff|, the
velocity becomes v_a - (scalar_product / pos_diff_norm ^ 2) pos_diff and the
position becomes p_a - 0.5 ((2 radius / pos_diff_norm) - 1) pos_diff. -/
noncomputable def resolveFst (radius : ℝ) (a b : Particle) : Particle :=
  let pdx := b.px - a.px
  let pdy := b.py - a.py
  let sp := (a.vx - b.vx) * pdx + (a.vy - b.vy) * pdy
  let nrm := Real.sqrt (pdx ^ 2 + pdy ^ 2)
  { px := a.px - 0.5 * ((2 * radius / nrm) - 1) * pdx
    py := a.py - 0.5 * ((2 * radius / nrm) - 1) * pdy
    vx := a.vx - (sp / nrm ^ 2) * pdx
    vy := a.vy - (sp / nrm ^ 2) * pdy }

/-- New state of the second particle of a resolved pair (a, b), lines 95-104
of the source: same quantities as in resolveFst, with the plus signs of
lines 101 and 104. -/
noncomputable def resolveSnd (radius : ℝ) (a b : Particle) : Particle :=
  let pdx := b.px - a.px
  let pdy := b.py - a.py
  let sp := (a.vx - b.vx) * pdx + (a.vy - b.vy) * pdy
  let nrm := Real.sqrt (pdx ^ 2 + pdy ^ 2)
  { px := b.px + 0.5 * ((2 * radius / nrm) - 1) * pdx
    py := b.py + 0.5 * ((2 * radius / nrm) - 1) * pdy
    vx := b.vx + (sp / nrm ^ 2) * pdx
    vy := b.vy + (sp / nrm ^ 2) * pdy }

/-- Vectorized resolution of all matched pairs, lines 92-104 of the source.
Every pair reads the pre-resolution state, because the numpy expressions for
all pairs are evaluated before any row is written.  The writes to the
colliding_2 rows (lines 101 and 104) land after the writes to the
colliding_1 rows (lines 100 and 103), and among duplicate row writes within
one fancy-indexed assignment the later element of the index array wins,
hence the find? over the reversed pair list and the priority of the second
role.  For the filtered matching all written rows are distinct, so neither
precedence matters there. -/
noncomputable def resolveAll (radius : ℝ) (m : List (ℕ × ℕ)) (s : List Particle) :
    List Particle :=
  (List.range s.length).map fun k =>
    match m.reverse.find? fun pr => pr.2 == k with
    | some pr => resolveSnd radius (s.getD pr.1 default) (s.getD pr.2 default)
    | none =>
      match m.reverse.find? fun pr => pr.1 == k with
      | some pr => resolveFst radius (s.getD pr.1 default) (s.getD pr.2 default)
      | none => s.getD k default

/-- Boundary handling for one axis of one particle, lines 107-118 of the
source.  Both out-of-bounds masks are computed from the coordinate value
before either branch writes; the min branch is applied first and the max
branch second, each reading the current values. -/
noncomputable def reflectAxis (radius size pos vel : ℝ) : ℝ × ℝ :=
  let vel1 := if pos < radius then -vel else vel
  let pos1 := if pos < radius then pos + (radius - pos + 1) else pos
  let vel2 := if pos > size - radius then -vel1 else vel1
  let pos2 := if pos > size - radius then pos1 + ((size - radius) - pos1 - 1) else pos1
  (pos2, vel2)

/-- Boundary handling for the whole state: axis 0 against the width, then
axis 1 against the height.  The two axes of one particle touch disjoint
components, and distinct particles are independent, so the per-axis loops of
the source collapse to one map. -/
noncomputable def reflect (radius w h : ℝ) (s : List Particle) : List Particle :=
  s.map fun p =>
    let x := reflectAxis radius w p.px p.vx
    let y := reflectAxis radius h p.py p.vy
    { px := x.1, py := y.1, vx := x.2, vy := y.2 }

/-- One tick: the step function of the source (lines 42-118) restricted to
the simulation state.  The canvas delta computation at lines 121-123 only
feeds the renderer and does not touch the state. -/
noncomputable def step (timeStep radius w h : ℝ) (s : List Particle) : List Particle :=
  let s1 := advance timeStep s
  let s2 := resolveAll radius (matching radius s1) s1
  reflect radius w h s2

/-- Reference three-stage filter, written from the spec wording for claim
C5: every stage keeps its survivors in enumeration order.  Stage 1 keeps,
for each distinct first index, the first pair in enumeration order carrying
it; stage 2 keeps, for each distinct second index, the first surviving pair
carrying it; stage 3 drops every survivor whose first index occurs among the
surviving second indices. -/
def refMatchPairs (l : List (ℕ × ℕ)) : List (ℕ × ℕ) :=
  let l1 := firstByKey Prod.fst l
  let l2 := firstByKey Prod.snd l1
  l2.filter fun p => decide (p.1 ∉ l2.map Prod.snd)

/-- Reference matching of a state for claim C5: the raw enumeration of
colliding pairs (i ascending, then j ascending, distance at most 2 radius)
reduced by the reference three-stage filter. -/
noncomputable def refMatching (radius : ℝ) (s : List Particle) : List (ℕ × ℕ) :=
  refMatchPairs (collidingPairs radius s)

lemma firstByKey_sublist (f : ℕ × ℕ → ℕ) (l : List (ℕ × ℕ)) :
    (firstByKey f l).Sublist l := by
  induction l using firstByKey.induct f with
  | case1 => simp [firstByKey]
  | case2 p rest ih =>
    rw [firstByKey]
    exact (ih.trans (List.filter_sublist _)).cons₂ p

lemma nodup_map_firstByKey (f : ℕ × ℕ → ℕ) (l : List (ℕ × ℕ)) :
    ((firstByKey f l).map f).Nodup := by
  induction l using firstByKey.induct f with
  | case1 => simp [firstByKey]
  | case2 p rest ih =>
    rw [firstByKey]
    simp only [List.map_cons, List.nodup_cons]
    refine ⟨?_, ih⟩
    intro hmem
    obtain ⟨q, hq, hfq⟩ := List.mem_map.mp hmem
    have hq2 : q ∈ rest.filter fun q => decide (f q ≠ f p) :=
      (firstByKey_sublist f _).subset hq
    have hq3 := List.mem_filter.mp hq2
    simp only [decide_eq_true_eq] at hq3
    exact hq3.2 hfq

lemma npUniqueBy_perm (f : ℕ × ℕ → ℕ) (l : List (ℕ × ℕ)) :
    (npUniqueBy f l).Perm (firstByKey f l) :=
  List.mergeSort_perm _ _

lemma mem_npUniqueBy_iff (f : ℕ × ℕ → ℕ) (l : List (ℕ × ℕ)) (p : ℕ × ℕ) :
    p ∈ npUniqueBy f l ↔ p ∈ firstByKey f l :=
  (npUniqueBy_perm f l).mem_iff

lemma nodup_map_npUniqueBy (f : ℕ × ℕ → ℕ) (l : List (ℕ × ℕ)) :
    ((npUniqueBy f l).map f).Nodup :=
  ((npUniqueBy_perm f l).map f).nodup_iff.mpr (nodup_map_firstByKey f l)

lemma npUniqueBy_eq_firstByKey (f : ℕ × ℕ → ℕ) (l : List (ℕ × ℕ))
    (h : l.Pairwise fun a b => f a ≤ f b) : npUniqueBy f l = firstByKey f l := by
  apply List.mergeSort_of_sorted
  have h2 : (firstByKey f l).Pairwise fun a b => f a ≤ f b :=
    List.Pairwise.sublist (firstByKey_sublist f l) h
  exact h2.imp fun hab => decide_eq_true hab

lemma pairwise_const {c : Prop} (hc : c) : ∀ L : List ℕ, L.Pairwise fun _ _ => c
  | [] => List.Pairwise.nil
  | _ :: xs => List.Pairwise.cons (fun _ _ => hc) (pairwise_const hc xs)

lemma mem_triuRows_fst {n : ℕ} {is : List ℕ} {pr : ℕ × ℕ} (h : pr ∈ triuRows n is) :
    pr.1 ∈ is := by
  induction is with
  | nil => simp [triuRows] at h
  | cons i is ih =>
    simp only [triuRows, List.mem_append] at h
    rcases h with h | h
    · obtain ⟨j, _, rfl⟩ := List.mem_map.mp h
      simp [triuRow]
    · exact List.mem_cons_of_mem _ (ih h)

lemma pairwise_fst_triuRows (n : ℕ) (is : List ℕ) (h : is.Pairwise (· ≤ ·)) :
    (triuRows n is).Pairwise fun a b => a.1 ≤ b.1 := by
  induction is with
  | nil => simp [triuRows]
  | cons i is ih =>
    rw [List.pairwise_cons] at h
    simp only [triuRows]
    rw [List.pairwise_append]
    refine ⟨?_, ih h.2, ?_⟩
    · apply List.pairwise_map.mpr
      exact (pairwise_const (le_refl i) _).imp fun _ => le_refl i
    · intro a ha b hb
      obtain ⟨j, _, rfl⟩ := List.mem_map.mp ha
      exact h.1 _ (mem_triuRows_fst hb)

lemma pairwise_fst_triuPairs (n : ℕ) : (triuPairs n).Pairwise fun a b => a.1 ≤ b.1 :=
  pairwise_fst_triuRows n _ ((List.pairwise_lt_range n).imp fun h => h.le)

lemma pairwise_fst_collidingPairs (radius : ℝ) (s : List Particle) :
    (collidingPairs radius s).Pairwise fun a b => a.1 ≤ b.1 :=
  List.Pairwise.sublist (List.filter_sublist _) (pairwise_fst_triuPairs _)

lemma nodup_snd_matchPairs (l : List (ℕ × ℕ)) :
    ((matchPairs l).map Prod.snd).Nodup := by
  simp only [matchPairs]
  exact List.Nodup.sublist
    ((List.filter_sublist _).map Prod.snd)
    (nodup_map_npUniqueBy Prod.snd (npUniqueBy Prod.fst l))

lemma nodup_fst_matchPairs (l : List (ℕ × ℕ)) :
    ((matchPairs l).map Prod.fst).Nodup := by
  simp only [matchPairs]
  have hl2snd := nodup_map_npUniqueBy Prod.snd (npUniqueBy Prod.fst l)
  have hl2 : (npUniqueBy Prod.snd (npUniqueBy Prod.fst l)).Nodup := hl2snd.of_map
  have hsub : ∀ q ∈ npUniqueBy Prod.snd (npUniqueBy Prod.fst l), q ∈ npUniqueBy Prod.fst l :=
    fun q hq =>
      (firstByKey_sublist Prod.snd _).subset ((mem_npUniqueBy_iff _ _ q).mp hq)
  have hinj := List.inj_on_of_nodup_map (nodup_map_npUniqueBy Prod.fst l)
  have hl2fst : ((npUniqueBy Prod.snd (npUniqueBy Prod.fst l)).map Prod.fst).Nodup :=
    List.Nodup.map_on (fun x hx y hy hxy => hinj (hsub x hx) (hsub y hy) hxy) hl2
  exact List.Nodup.sublist ((List.filter_sublist _).map Prod.fst) hl2fst

lemma fst_not_mem_snd_matchPairs (l : List (ℕ × ℕ)) :
    ∀ p ∈ matchPairs l, p.1 ∉ (matchPairs l).map Prod.snd := by
  intro p hp hmem
  simp only [matchPairs] at hp hmem
  have h2 := List.mem_filter.mp hp
  simp only [decide_eq_true_eq] at h2
  exact h2.2 (((List.filter_sublist _).map Prod.snd).subset hmem)

/-- Claim C1: for every state, in the matching produced by the three-stage
filter of the collision detector, no particle index occurs twice as a first
index, twice as a second index, or both as a first index of one surviving
pair and as a second index of another pair, so each particle index lies in
at most one surviving pair of any tick. -/
theorem matching_conflict_free (radius : ℝ) (s : List Particle) :
    ((matching radius s).map Prod.fst).Nodup ∧
      ((matching radius s).map Prod.snd).Nodup ∧
      ∀ p ∈ matching radius s, p.1 ∉ (matching radius s).map Prod.snd := by
  simp only [matching]
  exact ⟨nodup_fst_matchPairs _, nodup_snd_matchPairs _, fst_not_mem_snd_matchPairs _⟩

/-- Claim C5: for every state, the set of pairs surviving the source filter
(np.unique on first indices, np.unique on second indices, then np.in1d with
invert) equals the set produced by the order-preserving three-stage
reference filter stated in the spec. -/
theorem matching_eq_refMatching (radius : ℝ) (s : List Particle) (p : ℕ × ℕ) :
    p ∈ matching radius s ↔ p ∈ refMatching radius s := by
  have hsort := pairwise_fst_collidingPairs radius s
  simp only [matching, refMatching, matchPairs, refMatchPairs,
    npUniqueBy_eq_firstByKey Prod.fst _ hsort]
  have hperm := npUniqueBy_perm Prod.snd (firstByKey Prod.fst (collidingPairs radius s))
  simp only [List.mem_filter, decide_eq_true_eq]
  constructor
  · rintro ⟨h1, h2⟩
    exact ⟨hperm.mem_iff.mp h1, fun hc => h2 ((hperm.map Prod.snd).mem_iff.mpr hc)⟩
  · rintro ⟨h1, h2⟩
    exact ⟨hperm.mem_iff.mpr h1, fun hc => h2 ((hperm.map Prod.snd).mem_iff.mp hc)⟩

/-- Claim C2: for every resolved pair whose centers are at positive
distance, the resolver conserves the momentum of the pair exactly, on both
components: the post velocities of the two particles sum to the pre
velocities. -/
theorem resolver_momentum (radius : ℝ) (a b : Particle)
    (h : 0 < Real.sqrt ((b.px - a.px) ^ 2 + (b.py - a.py) ^ 2)) :
    (resolveFst radius a b).vx + (resolveSnd radius a b).vx = a.vx + b.vx ∧
      (resolveFst radius a b).vy + (resolveSnd radius a b).vy = a.vy + b.vy := by
  simp only [resolveFst, resolveSnd]
  constructor <;> ring

/-- Claim C3: for every resolved pair whose centers are at positive
distance, the resolver conserves the kinetic energy of the pair exactly: the
sum of the squared speeds is unchanged. -/
theorem resolver_energy (radius : ℝ) (a b : Particle)
    (h : 0 < Real.sqrt ((b.px - a.px) ^ 2 + (b.py - a.py) ^ 2)) :
    (resolveFst radius a b).vx ^ 2 + (resolveFst radius a b).vy ^ 2 +
        ((resolveSnd radius a b).vx ^ 2 + (resolveSnd radius a b).vy ^ 2) =
      a.vx ^ 2 + a.vy ^ 2 + (b.vx ^ 2 + b.vy ^ 2) := by
  have hsq : (0:ℝ) < (b.px - a.px) ^ 2 + (b.py - a.py) ^ 2 := Real.sqrt_pos.mp h
  have hrw : Real.sqrt ((b.px - a.px) ^ 2 + (b.py - a.py) ^ 2) ^ 2 =
      (b.px - a.px) ^ 2 + (b.py - a.py) ^ 2 := Real.sq_sqrt hsq.le
  simp only [resolveFst, resolveSnd, hrw]
  field_simp
  ring

/-- Claim C7: for every resolved pair whose centers are at positive
distance, with a positive particle radius, the corrected positions are at
distance exactly 2 radius, and the midpoint of the pair is preserved on both
coordinates. -/
theorem resolver_separation (radius : ℝ) (a b : Particle) (hr : 0 < radius)
    (h : 0 < Real.sqrt ((b.px - a.px) ^ 2 + (b.py - a.py) ^ 2)) :
    Real.sqrt (((resolveSnd radius a b).px - (resolveFst radius a b).px) ^ 2 +
        ((resolveSnd radius a b).py - (resolveFst radius a b).py) ^ 2) = 2 * radius ∧
      ((resolveFst radius a b).px + (resolveSnd radius a b).px) / 2 = (a.px + b.px) / 2 ∧
      ((resolveFst radius a b).py + (resolveSnd radius a b).py) / 2 = (a.py + b.py) / 2 := by
  have hsq : (0:ℝ) < (b.px - a.px) ^ 2 + (b.py - a.py) ^ 2 := Real.sqrt_pos.mp h
  set n := Real.sqrt ((b.px - a.px) ^ 2 + (b.py - a.py) ^ 2) with hn
  have hnsq : n ^ 2 = (b.px - a.px) ^ 2 + (b.py - a.py) ^ 2 := Real.sq_sqrt hsq.le
  refine ⟨?_, ?_, ?_⟩
  · have hdx : (resolveSnd radius a b).px - (resolveFst radius a b).px =
        2 * radius / n * (b.px - a.px) := by
      simp only [resolveFst, resolveSnd, ← hn]
      ring
    have hdy : (resolveSnd radius a b).py - (resolveFst radius a b).py =
        2 * radius / n * (b.py - a.py) := by
      simp only [resolveFst, resolveSnd, ← hn]
      ring
    rw [hdx, hdy]
    rw [show (2 * radius / n * (b.px - a.px)) ^ 2 + (2 * radius / n * (b.py - a.py)) ^ 2 =
        (2 * radius / n) ^ 2 * ((b.px - a.px) ^ 2 + (b.py - a.py) ^ 2) by ring]
    rw [← hnsq]
    rw [show (2 * radius / n) ^ 2 * n ^ 2 = (2 * radius / n * n) ^ 2 by ring]
    rw [Real.sqrt_sq (le_of_lt (mul_pos (div_pos (by linarith) h) h))]
    rw [div_mul_cancel₀ _ (ne_of_gt h)]
  · simp only [resolveFst, resolveSnd]
    ring
  · simp only [resolveFst, resolveSnd]
    ring

lemma sqrt_eval {x c : ℝ} (hc : 0 ≤ c) (hx : x = c ^ 2) : Real.sqrt x = c := by
  rw [hx, Real.sqrt_sq hc]

lemma reflectAxis_mid {radius size pos vel : ℝ} (h1 : ¬ pos < radius)
    (h2 : ¬ pos > size - radius) : reflectAxis radius size pos vel = (pos, vel) := by
  simp only [reflectAxis, if_neg h1, if_neg h2]

lemma reflectAxis_low {radius size pos vel : ℝ} (h1 : pos < radius)
    (h2 : ¬ pos > size - radius) : reflectAxis radius size pos vel = (radius + 1, -vel) := by
  simp only [reflectAxis, if_pos h1, if_neg h2, Prod.mk.injEq]
  exact ⟨by ring, trivial⟩

lemma reflectAxis_high {radius size pos vel : ℝ} (h1 : ¬ pos < radius)
    (h2 : pos > size - radius) : reflectAxis radius size pos vel = (size - radius - 1, -vel) := by
  simp only [reflectAxis, if_neg h1, if_pos h2, Prod.mk.injEq]
  exact ⟨by ring, trivial⟩

lemma advance_zero_dt (s : List Particle) : advance 0 s = s := by
  unfold advance
  have hid : ∀ p ∈ s,
      ({ p with px := p.px + p.vx * 0, py := p.py + p.vy * 0 } : Particle) = p := by
    intro p _
    ext <;> simp
  rw [List.map_congr_left hid]
  exact List.map_id' s

lemma advance_zero_vel (dt : ℝ) (s : List Particle)
    (hv : ∀ p ∈ s, p.vx = 0 ∧ p.vy = 0) : advance dt s = s := by
  unfold advance
  have hid : ∀ p ∈ s,
      ({ p with px := p.px + p.vx * dt, py := p.py + p.vy * dt } : Particle) = p := by
    intro p hp
    obtain ⟨h1, h2⟩ := hv p hp
    ext <;> simp [h1, h2]
  rw [List.map_congr_left hid]
  exact List.map_id' s

lemma matchPairs_nil : matchPairs [] = [] := by
  simp [matchPairs, npUniqueBy, firstByKey]

lemma matchPairs_single : matchPairs [(0, 1)] = [(0, 1)] := by
  simp [matchPairs, npUniqueBy, firstByKey]

lemma resolveAll_nil (radius : ℝ) (s : List Particle) : resolveAll radius [] s = s := by
  simp only [resolveAll, List.reverse_nil, List.find?_nil]
  apply List.ext_getElem?
  intro k
  rw [List.getElem?_map]
  by_cases hk : k < s.length
  · rw [List.getElem?_range hk, Option.map_some', List.getD_eq_getElem?_getD,
      List.getElem?_eq_getElem hk, Option.getD_some]
  · rw [List.getElem?_eq_none (by rw [List.length_range]; omega),
      List.getElem?_eq_none (by omega)]
    rfl

lemma resolveAll_pair (radius : ℝ) (s : List Particle) (hs : s.length = 2) :
    resolveAll radius [(0, 1)] s =
      [resolveFst radius (s.getD 0 default) (s.getD 1 default),
        resolveSnd radius (s.getD 0 default) (s.getD 1 default)] := by
  simp only [resolveAll, hs]
  rw [show List.range 2 = [0, 1] from rfl]
  simp [List.find?]

lemma matching_short (radius : ℝ) (s : List Particle) (hs : s.length ≤ 1) :
    matching radius s = [] := by
  rcases Nat.le_one_iff_eq_zero_or_eq_one.mp hs with h | h <;>
    simp [matching, collidingPairs, h, matchPairs_nil,
      show triuPairs 0 = [] from rfl, show triuPairs 1 = [] from rfl]

lemma collidingPairs_far (radius : ℝ) (s : List Particle)
    (hd : ∀ pr ∈ triuPairs s.length, 2 * radius < pdistVal s pr.1 pr.2) :
    collidingPairs radius s = [] := by
  simp only [collidingPairs]
  rw [List.filter_eq_nil_iff]
  intro pr hpr
  simp only [decide_eq_true_eq, not_le]
  exact hd pr hpr

lemma reflect_inside (radius w h : ℝ) (s : List Particle)
    (hb : ∀ p ∈ s, radius ≤ p.px ∧ p.px ≤ w - radius ∧ radius ≤ p.py ∧ p.py ≤ h - radius) :
    reflect radius w h s = s := by
  unfold reflect
  have hid : ∀ p ∈ s,
      (let x := reflectAxis radius w p.px p.vx
       let y := reflectAxis radius h p.py p.vy
       { px := x.1, py := y.1, vx := x.2, vy := y.2 } : Particle) = p := by
    intro p hp
    obtain ⟨h1, h2, h3, h4⟩ := hb p hp
    simp only [reflectAxis_mid (not_lt.mpr h1) (not_lt.mpr h2),
      reflectAxis_mid (not_lt.mpr h3) (not_lt.mpr h4)]
  rw [List.map_congr_left hid]
  exact List.map_id' s

/-- Head-on scenario state of the spec: radius-3 particles at (10,50) and
(16,50) with velocities (5,0) and (-5,0). -/
def headOn : List Particle := [⟨10, 50, 5, 0⟩, ⟨16, 50, -5, 0⟩]

/-- Two coincident particles: the degenerate input for claim C4. -/
def coincident : List Particle := [⟨10, 50, 1, 0⟩, ⟨10, 50, 0, 0⟩]

/-- Two overlapping resting particles: first countering state for claim C9. -/
def restingOverlap : List Particle := [⟨10, 50, 0, 0⟩, ⟨11, 50, 0, 0⟩]

/-- One resting particle inside the left boundary band: second countering
state for claim C9. -/
def restingLow : List Particle := [⟨1, 50, 0, 0⟩]

/-- One particle about to cross the left wall: the boundary scenario of
claim C6. -/
def nearWall : List Particle := [⟨1, 50, -5, 0⟩]

/-- Two resting particles far apart and away from the walls: witness state
for the amended claim C9. -/
def restingFar : List Particle := [⟨10, 50, 0, 0⟩, ⟨100, 50, 0, 0⟩]

/-- A colliding pair plus one distant spectator: witness state for claim
C10. -/
def trio : List Particle := [⟨10, 50, 5, 0⟩, ⟨16, 50, -5, 0⟩, ⟨100, 100, 1, 2⟩]

lemma sqrt_36 : Real.sqrt 36 = 6 := sqrt_eval (by norm_num) (by norm_num)

lemma pdistVal_headOn : pdistVal headOn 0 1 = 6 := by
  rw [pdistVal, show headOn.getD 1 default = ⟨16, 50, -5, 0⟩ from rfl,
    show headOn.getD 0 default = ⟨10, 50, 5, 0⟩ from rfl]
  exact sqrt_eval (by norm_num) (by norm_num)

lemma pdistVal_coincident : pdistVal coincident 0 1 = 0 := by
  rw [pdistVal, show coincident.getD 1 default = ⟨10, 50, 0, 0⟩ from rfl,
    show coincident.getD 0 default = ⟨10, 50, 1, 0⟩ from rfl]
  exact sqrt_eval (by norm_num) (by norm_num)

lemma pdistVal_restingOverlap : pdistVal restingOverlap 0 1 = 1 := by
  rw [pdistVal, show restingOverlap.getD 1 default = ⟨11, 50, 0, 0⟩ from rfl,
    show restingOverlap.getD 0 default = ⟨10, 50, 0, 0⟩ from rfl]
  exact sqrt_eval (by norm_num) (by norm_num)

lemma pdistVal_restingFar : pdistVal restingFar 0 1 = 90 := by
  rw [pdistVal, show restingFar.getD 1 default = ⟨100, 50, 0, 0⟩ from rfl,
    show restingFar.getD 0 default = ⟨10, 50, 0, 0⟩ from rfl]
  exact sqrt_eval (by norm_num) (by norm_num)

lemma collidingPairs_two (radius : ℝ) (a b : Particle)
    (h : pdistVal [a, b] 0 1 ≤ 2 * radius) :
    collidingPairs radius [a, b] = [(0, 1)] := by
  rw [collidingPairs, show ([a, b] : List Particle).length = 2 from rfl,
    show triuPairs 2 = [(0, 1)] from rfl]
  rw [List.filter_cons, List.filter_nil]
  rw [if_pos (show _ = true from decide_eq_true h)]

lemma matching_two (radius : ℝ) (a b : Particle)
    (h : pdistVal [a, b] 0 1 ≤ 2 * radius) :
    matching radius [a, b] = [(0, 1)] := by
  rw [matching, collidingPairs_two radius a b h, matchPairs_single]

lemma resolveFst_headOn : resolveFst 3 ⟨10, 50, 5, 0⟩ ⟨16, 50, -5, 0⟩ = ⟨10, 50, -5, 0⟩ := by
  rw [resolveFst]
  norm_num [sqrt_36, Particle.mk.injEq]

lemma resolveSnd_headOn : resolveSnd 3 ⟨10, 50, 5, 0⟩ ⟨16, 50, -5, 0⟩ = ⟨16, 50, 5, 0⟩ := by
  rw [resolveSnd]
  norm_num [sqrt_36, Particle.mk.injEq]

/-- Claim C8: in the two-particle head-on state at center distance exactly
2 radius, one tick with dt = 0 detects and resolves the pair, swapping the
velocities exactly and leaving both positions unchanged. -/
theorem headOn_swap :
    matching 3 (advance 0 headOn) = [(0, 1)] ∧
      step 0 3 700 700 headOn = [⟨10, 50, -5, 0⟩, ⟨16, 50, 5, 0⟩] := by
  have hm : matching 3 headOn = [(0, 1)] := by
    rw [show headOn = [⟨10, 50, 5, 0⟩, ⟨16, 50, -5, 0⟩] from rfl]
    exact matching_two 3 _ _
      (by rw [show ([⟨10, 50, 5, 0⟩, ⟨16, 50, -5, 0⟩] : List Particle) = headOn from rfl,
            pdistVal_headOn]
          norm_num)
  refine ⟨by rw [advance_zero_dt, hm], ?_⟩
  rw [step, advance_zero_dt, hm,
    show headOn = [⟨10, 50, 5, 0⟩, ⟨16, 50, -5, 0⟩] from rfl]
  rw [resolveAll_pair 3 [⟨10, 50, 5, 0⟩, ⟨16, 50, -5, 0⟩] rfl]
  rw [show ([⟨10, 50, 5, 0⟩, ⟨16, 50, -5, 0⟩] : List Particle).getD 0 default =
      ⟨10, 50, 5, 0⟩ from rfl,
    show ([⟨10, 50, 5, 0⟩, ⟨16, 50, -5, 0⟩] : List Particle).getD 1 default =
      ⟨16, 50, -5, 0⟩ from rfl]
  rw [resolveFst_headOn, resolveSnd_headOn]
  simp only [reflect, List.map_cons, List.map_nil]
  rw [reflectAxis_mid (by norm_num : ¬ (10:ℝ) < 3) (by norm_num),
    reflectAxis_mid (by norm_num : ¬ (16:ℝ) < 3) (by norm_num),
    reflectAxis_mid (by norm_num : ¬ (50:ℝ) < 3) (by norm_num)]

/-- Claim C4, behavior of the code at the degeneracy: for two coincident
particles the detector does match the pair, and the center distance of the
matched pair is zero, so line 100 of the source computes scalar_product /
pos_diff_norm ** 2 with a zero denominator.  In the floating arithmetic of
the source this is 0/0 = NaN, which is then written into the rows of both
particles; the pair is not skipped and the state does not stay unchanged,
contrary to the guard the spec requires. -/
theorem coincident_division_reached :
    (0, 1) ∈ matching 3 (advance 0 coincident) ∧
      pdistVal (advance 0 coincident) 0 1 = 0 := by
  rw [advance_zero_dt]
  constructor
  · rw [show coincident = [⟨10, 50, 1, 0⟩, ⟨10, 50, 0, 0⟩] from rfl]
    rw [matching_two 3 _ _
      (by rw [show ([⟨10, 50, 1, 0⟩, ⟨10, 50, 0, 0⟩] : List Particle) = coincident from rfl,
            pdistVal_coincident]
          norm_num)]
    simp
  · exact pdistVal_coincident

/-- Claim C6: per-axis boundary behavior, under the domain invariant
2 radius ≤ size of the spec: a coordinate below radius gets its velocity
component negated and is placed at exactly radius + 1; a coordinate above
size - radius gets its velocity component negated and is placed at exactly
size - radius - 1; otherwise the axis is untouched.  In particular the
particle at (1, 50) with radius 3 and velocity (-5, 0) has x-position 4 and
x-velocity 5 after one tick with dt = 1 in the 700 x 700 domain. -/
theorem boundary_reflection (radius size pos vel : ℝ) (hdom : 2 * radius ≤ size) :
    (pos < radius → reflectAxis radius size pos vel = (radius + 1, -vel)) ∧
      (pos > size - radius → reflectAxis radius size pos vel = (size - radius - 1, -vel)) ∧
      (¬ pos < radius → ¬ pos > size - radius → reflectAxis radius size pos vel = (pos, vel)) ∧
      step 1 3 700 700 nearWall = [⟨4, 50, 5, 0⟩] := by
  refine ⟨?_, ?_, fun h1 h2 => reflectAxis_mid h1 h2, ?_⟩
  · intro h1
    exact reflectAxis_low h1 (not_lt.mpr (by linarith))
  · intro h2
    exact reflectAxis_high (not_lt.mpr (by linarith)) h2
  · rw [step, show nearWall = [⟨1, 50, -5, 0⟩] from rfl]
    have hadv : advance 1 [(⟨1, 50, -5, 0⟩ : Particle)] = [⟨-4, 50, -5, 0⟩] := by
      rw [advance]
      simp only [List.map_cons, List.map_nil]
      norm_num [Particle.mk.injEq]
    rw [hadv, matching_short 3 _ (by simp), resolveAll_nil]
    simp only [reflect, List.map_cons, List.map_nil]
    rw [reflectAxis_low (by norm_num : (-4:ℝ) < 3) (by norm_num),
      reflectAxis_mid (by norm_num : ¬ (50:ℝ) < 3) (by norm_num)]
    norm_num [Particle.mk.injEq]

/-- Witness for claim C6 at radius 3, size 700, position 1, velocity -5:
the domain hypothesis holds, the low branch fires, and the scenario
conclusion is obtained from the theorem. -/
theorem boundary_reflection_witness :
    2 * (3:ℝ) ≤ 700 ∧ (1:ℝ) < 3 ∧
      reflectAxis 3 700 1 (-5) = (3 + 1, -(-5)) ∧
      step 1 3 700 700 nearWall = [⟨4, 50, 5, 0⟩] :=
  ⟨by norm_num, by norm_num,
    (boundary_reflection 3 700 1 (-5) (by norm_num)).1 (by norm_num),
    (boundary_reflection 3 700 1 (-5) (by norm_num)).2.2.2⟩

/-- Claim C9 as stated is false: two resting particles that overlap are
matched and pushed apart by the position correction, so a state with all
velocities zero does not stay fixed under one tick, and its matching is not
empty; likewise a resting particle inside the boundary band is moved by the
reflector.  Both countering states are exhibited. -/
theorem step_zero_velocity_counterexample :
    (∀ p ∈ restingOverlap, p.vx = 0 ∧ p.vy = 0) ∧
      matching 3 (advance 1 restingOverlap) ≠ [] ∧
      step 1 3 700 700 restingOverlap ≠ restingOverlap ∧
      (∀ p ∈ restingLow, p.vx = 0 ∧ p.vy = 0) ∧
      step 1 3 700 700 restingLow ≠ restingLow := by
  have hv1 : ∀ p ∈ restingOverlap, p.vx = 0 ∧ p.vy = 0 := by
    intro p hp
    simp only [restingOverlap, List.mem_cons, List.not_mem_nil, or_false] at hp
    rcases hp with rfl | rfl <;> exact ⟨rfl, rfl⟩
  have hv2 : ∀ p ∈ restingLow, p.vx = 0 ∧ p.vy = 0 := by
    intro p hp
    simp only [restingLow, List.mem_cons, List.not_mem_nil, or_false] at hp
    rcases hp with rfl <;> exact ⟨rfl, rfl⟩
  have hadv1 : advance 1 restingOverlap = restingOverlap := advance_zero_vel 1 _ hv1
  have hm1 : matching 3 restingOverlap = [(0, 1)] := by
    rw [show restingOverlap = [⟨10, 50, 0, 0⟩, ⟨11, 50, 0, 0⟩] from rfl]
    exact matching_two 3 _ _
      (by rw [show ([⟨10, 50, 0, 0⟩, ⟨11, 50, 0, 0⟩] : List Particle) = restingOverlap from rfl,
            pdistVal_restingOverlap]
          norm_num)
  have hfst : resolveFst 3 ⟨10, 50, 0, 0⟩ ⟨11, 50, 0, 0⟩ = ⟨7.5, 50, 0, 0⟩ := by
    rw [resolveFst]
    norm_num [Particle.mk.injEq]
  have hsnd : resolveSnd 3 ⟨10, 50, 0, 0⟩ ⟨11, 50, 0, 0⟩ = ⟨13.5, 50, 0, 0⟩ := by
    rw [resolveSnd]
    norm_num [Particle.mk.injEq]
  have hstep1 : step 1 3 700 700 restingOverlap = [⟨7.5, 50, 0, 0⟩, ⟨13.5, 50, 0, 0⟩] := by
    rw [step, hadv1, hm1, show restingOverlap = [⟨10, 50, 0, 0⟩, ⟨11, 50, 0, 0⟩] from rfl]
    rw [resolveAll_pair 3 [⟨10, 50, 0, 0⟩, ⟨11, 50, 0, 0⟩] rfl]
    rw [show ([⟨10, 50, 0, 0⟩, ⟨11, 50, 0, 0⟩] : List Particle).getD 0 default =
        ⟨10, 50, 0, 0⟩ from rfl,
      show ([⟨10, 50, 0, 0⟩, ⟨11, 50, 0, 0⟩] : List Particle).getD 1 default =
        ⟨11, 50, 0, 0⟩ from rfl]
    rw [hfst, hsnd]
    simp only [reflect, List.map_cons, List.map_nil]
    rw [reflectAxis_mid (by norm_num : ¬ (7.5:ℝ) < 3) (by norm_num),
      reflectAxis_mid (by norm_num : ¬ (13.5:ℝ) < 3) (by norm_num),
      reflectAxis_mid (by norm_num : ¬ (50:ℝ) < 3) (by norm_num)]
  have hstep2 : step 1 3 700 700 restingLow = [⟨4, 50, 0, 0⟩] := by
    have hadv2 : advance 1 restingLow = restingLow := advance_zero_vel 1 _ hv2
    rw [step, hadv2, matching_short 3 _ (by simp [restingLow]), resolveAll_nil,
      show restingLow = [⟨1, 50, 0, 0⟩] from rfl]
    simp only [reflect, List.map_cons, List.map_nil]
    rw [reflectAxis_low (by norm_num : (1:ℝ) < 3) (by norm_num),
      reflectAxis_mid (by norm_num : ¬ (50:ℝ) < 3) (by norm_num)]
    norm_num [Particle.mk.injEq]
  refine ⟨hv1, ?_, ?_, hv2, ?_⟩
  · rw [hadv1, hm1]
    simp
  · rw [hstep1, show restingOverlap = [⟨10, 50, 0, 0⟩, ⟨11, 50, 0, 0⟩] from rfl]
    simp only [ne_eq, List.cons.injEq, Particle.mk.injEq]
    norm_num
  · rw [hstep2, show restingLow = [⟨1, 50, 0, 0⟩] from rfl]
    simp only [ne_eq, List.cons.injEq, Particle.mk.injEq]
    norm_num

/-- Claim C9, amended: if all velocities are zero, every two particles are
farther apart than 2 radius, and every coordinate already lies within
[radius, size - radius] of its axis, then a tick fixes the state, the
matching is empty, and any number of repeated ticks fixes the state. -/
theorem step_zero_velocity_invariant (timeStep radius w h : ℝ) (s : List Particle)
    (hv : ∀ p ∈ s, p.vx = 0 ∧ p.vy = 0)
    (hd : ∀ pr ∈ triuPairs s.length, 2 * radius < pdistVal s pr.1 pr.2)
    (hb : ∀ p ∈ s, radius ≤ p.px ∧ p.px ≤ w - radius ∧ radius ≤ p.py ∧ p.py ≤ h - radius) :
    matching radius (advance timeStep s) = [] ∧
      ∀ k : ℕ, (step timeStep radius w h)^[k] s = s := by
  have hadv : advance timeStep s = s := advance_zero_vel timeStep s hv
  have hm : matching radius s = [] := by
    rw [matching, collidingPairs_far radius s hd, matchPairs_nil]
  have hstep : step timeStep radius w h s = s := by
    rw [step, hadv, hm, resolveAll_nil, reflect_inside radius w h s hb]
  refine ⟨by rw [hadv, hm], ?_⟩
  intro k
  induction k with
  | zero => rfl
  | succ n ih => rw [Function.iterate_succ_apply, hstep, ih]

/-- Witness for the amended claim C9: two distant resting particles away
from the walls, radius 3, domain 700 x 700, dt = 2, four repeated ticks. -/
theorem step_zero_velocity_invariant_witness :
    (∀ p ∈ restingFar, p.vx = 0 ∧ p.vy = 0) ∧
      matching 3 (advance 2 restingFar) = [] ∧
      (step 2 3 700 700)^[4] restingFar = restingFar := by
  have hv : ∀ p ∈ restingFar, p.vx = 0 ∧ p.vy = 0 := by
    intro p hp
    simp only [restingFar, List.mem_cons, List.not_mem_nil, or_false] at hp
    rcases hp with rfl | rfl <;> exact ⟨rfl, rfl⟩
  have hd : ∀ pr ∈ triuPairs restingFar.length, 2 * 3 < pdistVal restingFar pr.1 pr.2 := by
    intro pr hpr
    rw [show triuPairs restingFar.length = [(0, 1)] from rfl] at hpr
    simp only [List.mem_cons, List.not_mem_nil, or_false] at hpr
    subst hpr
    rw [show ((0, 1) : ℕ × ℕ).1 = 0 from rfl, show ((0, 1) : ℕ × ℕ).2 = 1 from rfl,
      pdistVal_restingFar]
    norm_num
  have hb : ∀ p ∈ restingFar,
      (3:ℝ) ≤ p.px ∧ p.px ≤ 700 - 3 ∧ (3:ℝ) ≤ p.py ∧ p.py ≤ 700 - 3 := by
    intro p hp
    simp only [restingFar, List.mem_cons, List.not_mem_nil, or_false] at hp
    rcases hp with rfl | rfl <;> norm_num
  have h := step_zero_velocity_invariant 2 3 700 700 restingFar hv hd hb
  exact ⟨hv, h.1, h.2 4⟩

/-- Claim C10: the resolution stage writes only to particles named in the
matching: a particle index in no surviving pair keeps its position and
velocity across the resolver. -/
theorem resolve_frame (radius : ℝ) (s : List Particle) (k : ℕ)
    (hk : ∀ pr ∈ matching radius s, pr.1 ≠ k ∧ pr.2 ≠ k) :
    (resolveAll radius (matching radius s) s).getD k default = s.getD k default := by
  have h2 : (matching radius s).reverse.find? (fun pr => pr.2 == k) = none := by
    rw [List.find?_eq_none]
    intro pr hpr
    simp only [beq_iff_eq]
    exact (hk pr (List.mem_reverse.mp hpr)).2
  have h1 : (matching radius s).reverse.find? (fun pr => pr.1 == k) = none := by
    rw [List.find?_eq_none]
    intro pr hpr
    simp only [beq_iff_eq]
    exact (hk pr (List.mem_reverse.mp hpr)).1
  rw [resolveAll]
  by_cases hlen : k < s.length
  · rw [List.getD_eq_getElem?_getD, List.getElem?_map, List.getElem?_range hlen,
      Option.map_some', Option.getD_some]
    simp only [h2, h1]
  · have hge : s.length ≤ k := le_of_not_lt hlen
    rw [List.getD_eq_getElem?_getD, List.getElem?_map,
      List.getElem?_eq_none (by rw [List.length_range]; exact hge),
      List.getD_eq_default _ _ hge]
    rfl

lemma pdistVal_trio01 : pdistVal trio 0 1 = 6 := by
  rw [pdistVal, show trio.getD 1 default = ⟨16, 50, -5, 0⟩ from rfl,
    show trio.getD 0 default = ⟨10, 50, 5, 0⟩ from rfl]
  exact sqrt_eval (by norm_num) (by norm_num)

lemma collidingPairs_trio : collidingPairs 3 trio = [(0, 1)] := by
  rw [collidingPairs, show trio.length = 3 from rfl,
    show triuPairs 3 = [(0, 1), (0, 2), (1, 2)] from rfl]
  have h01 : pdistVal trio 0 1 ≤ 2 * 3 := by
    rw [pdistVal_trio01]
    norm_num
  have h02 : ¬ pdistVal trio 0 2 ≤ 2 * 3 := by
    rw [pdistVal, show trio.getD 2 default = ⟨100, 100, 1, 2⟩ from rfl,
      show trio.getD 0 default = ⟨10, 50, 5, 0⟩ from rfl, not_le]
    have h : (6:ℝ) < Real.sqrt 10600 := (Real.lt_sqrt (by norm_num)).mpr (by norm_num)
    norm_num [h]
  have h12 : ¬ pdistVal trio 1 2 ≤ 2 * 3 := by
    rw [pdistVal, show trio.getD 2 default = ⟨100, 100, 1, 2⟩ from rfl,
      show trio.getD 1 default = ⟨16, 50, -5, 0⟩ from rfl, not_le]
    have h : (6:ℝ) < Real.sqrt 9556 := (Real.lt_sqrt (by norm_num)).mpr (by norm_num)
    norm_num [h]
  rw [List.filter_cons, if_pos (show _ = true from decide_eq_true h01)]
  rw [List.filter_cons, if_neg (show ¬ _ = true from by
    simp only [decide_eq_true_eq]
    exact h02)]
  rw [List.filter_cons, if_neg (show ¬ _ = true from by
    simp only [decide_eq_true_eq]
    exact h12)]
  rw [List.filter_nil]

lemma matching_trio : matching 3 trio = [(0, 1)] := by
  rw [matching, collidingPairs_trio, matchPairs_single]

/-- Witness for claim C10: in the three-particle state the matching is the
one pair (0, 1), so the spectator particle 2 is untouched by the
resolver. -/
theorem resolve_frame_witness :
    (∀ pr ∈ matching 3 trio, pr.1 ≠ 2 ∧ pr.2 ≠ 2) ∧
      (resolveAll 3 (matching 3 trio) trio).getD 2 default = trio.getD 2 default := by
  have hk : ∀ pr ∈ matching 3 trio, pr.1 ≠ 2 ∧ pr.2 ≠ 2 := by
    rw [matching_trio]
    intro pr hpr
    simp only [List.mem_cons, List.not_mem_nil, or_false] at hpr
    subst hpr
    exact ⟨by norm_num, by norm_num⟩
  exact ⟨hk, resolve_frame 3 trio 2 hk⟩

lemma sqrt_pos_headOn : (0:ℝ) < Real.sqrt (((16:ℝ) - 10) ^ 2 + ((50:ℝ) - 50) ^ 2) := by
  rw [show ((16:ℝ) - 10) ^ 2 + ((50:ℝ) - 50) ^ 2 = 36 by norm_num, sqrt_36]
  norm_num

/-- Witness for claim C2 on the head-on pair: its center distance is
positive and momentum is conserved there. -/
theorem resolver_momentum_witness :
    (0:ℝ) < Real.sqrt (((16:ℝ) - 10) ^ 2 + ((50:ℝ) - 50) ^ 2) ∧
      ((resolveFst 3 ⟨10, 50, 5, 0⟩ ⟨16, 50, -5, 0⟩).vx +
            (resolveSnd 3 ⟨10, 50, 5, 0⟩ ⟨16, 50, -5, 0⟩).vx =
          (⟨10, 50, 5, 0⟩ : Particle).vx + (⟨16, 50, -5, 0⟩ : Particle).vx ∧
        (resolveFst 3 ⟨10, 50, 5, 0⟩ ⟨16, 50, -5, 0⟩).vy +
            (resolveSnd 3 ⟨10, 50, 5, 0⟩ ⟨16, 50, -5, 0⟩).vy =
          (⟨10, 50, 5, 0⟩ : Particle).vy + (⟨16, 50, -5, 0⟩ : Particle).vy) :=
  ⟨sqrt_pos_headOn, resolver_momentum 3 ⟨10, 50, 5, 0⟩ ⟨16, 50, -5, 0⟩ sqrt_pos_headOn⟩

/-- Witness for claim C3 on the head-on pair: its center distance is
positive and kinetic energy is conserved there. -/
theorem resolver_energy_witness :
    (0:ℝ) < Real.sqrt (((16:ℝ) - 10) ^ 2 + ((50:ℝ) - 50) ^ 2) ∧
      (resolveFst 3 ⟨10, 50, 5, 0⟩ ⟨16, 50, -5, 0⟩).vx ^ 2 +
          (resolveFst 3 ⟨10, 50, 5, 0⟩ ⟨16, 50, -5, 0⟩).vy ^ 2 +
          ((resolveSnd 3 ⟨10, 50, 5, 0⟩ ⟨16, 50, -5, 0⟩).vx ^ 2 +
            (resolveSnd 3 ⟨10, 50, 5, 0⟩ ⟨16, 50, -5, 0⟩).vy ^ 2) =
        (⟨10, 50, 5, 0⟩ : Particle).vx ^ 2 + (⟨10, 50, 5, 0⟩ : Particle).vy ^ 2 +
          ((⟨16, 50, -5, 0⟩ : Particle).vx ^ 2 + (⟨16, 50, -5, 0⟩ : Particle).vy ^ 2) :=
  ⟨sqrt_pos_headOn, resolver_energy 3 ⟨10, 50, 5, 0⟩ ⟨16, 50, -5, 0⟩ sqrt_pos_headOn⟩

/-- Witness for claim C7 on the head-on pair: radius 3 is positive, the
center distance is positive, the corrected separation is exactly 2 radius
and the midpoint is preserved. -/
theorem resolver_separation_witness :
    (0:ℝ) < 3 ∧ (0:ℝ) < Real.sqrt (((16:ℝ) - 10) ^ 2 + ((50:ℝ) - 50) ^ 2) ∧
      (Real.sqrt (((resolveSnd 3 ⟨10, 50, 5, 0⟩ ⟨16, 50, -5, 0⟩).px -
              (resolveFst 3 ⟨10, 50, 5, 0⟩ ⟨16, 50, -5, 0⟩).px) ^ 2 +
            ((resolveSnd 3 ⟨10, 50, 5, 0⟩ ⟨16, 50, -5, 0⟩).py -
              (resolveFst 3 ⟨10, 50, 5, 0⟩ ⟨16, 50, -5, 0⟩).py) ^ 2) = 2 * 3 ∧
        ((resolveFst 3 ⟨10, 50, 5, 0⟩ ⟨16, 50, -5, 0⟩).px +
              (resolveSnd 3 ⟨10, 50, 5, 0⟩ ⟨16, 50, -5, 0⟩).px) / 2 =
          ((⟨10, 50, 5, 0⟩ : Particle).px + (⟨16, 50, -5, 0⟩ : Particle).px) / 2 ∧
        ((resolveFst 3 ⟨10, 50, 5, 0⟩ ⟨16, 50, -5, 0⟩).py +
              (resolveSnd 3 ⟨10, 50, 5, 0⟩ ⟨16, 50, -5, 0⟩).py) / 2 =
          ((⟨10, 50, 5, 0⟩ : Particle).py + (⟨16, 50, -5, 0⟩ : Particle).py) / 2) :=
  ⟨by norm_num, sqrt_pos_headOn,
    resolver_separation 3 ⟨10, 50, 5, 0⟩ ⟨16, 50, -5, 0⟩ (by norm_num) sqrt_pos_headOn⟩

/-- Witness for claim C1: in the three-particle state the pair (0, 1) is in
the matching, and its first index does not occur among the second indices of
the matching. -/
theorem matching_conflict_free_witness :
    (0, 1) ∈ matching 3 trio ∧
      ((0, 1) : ℕ × ℕ).1 ∉ (matching 3 trio).map Prod.snd := by
  have hm : (0, 1) ∈ matching 3 trio := by
    rw [matching_trio]
    simp
  exact ⟨hm, (matching_conflict_free 3 trio).2.2 (0, 1) hm⟩
